import Mathlib

/-!
Verification of the network-state enumeration and interface-configuration
subsystem of `ifutil.py` (confconsole).

The Python source is shallowly embedded below.  Pure string manipulation is
translated to executable Lean functions on `String` / `List Char`; the
collaborators that the source calls out to (the command runner `executil`,
the config-file store `conffiles.Interfaces`, kernel address queries and the
filesystem) are modelled as explicit environments that the embedded
functions take as arguments.  Python exceptions are modelled with
`Except` / `Option`; machine integers do not occur (all arithmetic in the
source is on unbounded Python ints, matched by `Nat` here, with explicit
masks `&&& 0xff` exactly where the source masks).
-/

set_option maxHeartbeats 2000000
set_option maxRecDepth 8192

namespace Ifutil

/-! ## Python string primitives

Helpers mirroring the Python string operations used by `ifutil.py`:
`str.split()` (no argument: split on whitespace runs, no empty fields),
`str.split(sep, 1)`, `str.splitlines()`, `str.strip()`, `str.startswith`,
`str.endswith` and `sep.join`. -/

/-- The whitespace characters of Python's `str.split()` / `str.strip()`
(the ASCII ones, which are the only ones that occur in the parsed data). -/
def isSpaceChar (c : Char) : Bool :=
  c = ' ' || c = '\t' || c = '\n' || c = '\r' || c = '\x0b' || c = '\x0c'

/-- Worker for `pyWords`: accumulate the current word (reversed) and split
on runs of whitespace. -/
def wordsAux (acc : List Char) : List Char → List (List Char)
  | [] => if acc.isEmpty then [] else [acc.reverse]
  | c :: rest =>
    if isSpaceChar c then
      if acc.isEmpty then wordsAux [] rest
      else acc.reverse :: wordsAux [] rest
    else wordsAux (c :: acc) rest

/-- Python `s.split()` with no arguments: the whitespace-separated words of
`s`, with no empty fields. -/
def pyWords (s : String) : List String :=
  (wordsAux [] s.data).map String.mk

/-- Split a character list at every occurrence of `sep` (Python
`s.split(sep)` at character level): always returns at least one group. -/
def splitCharAll (sep : Char) : List Char → List (List Char)
  | [] => [[]]
  | c :: rest =>
    if c = sep then [] :: splitCharAll sep rest
    else
      match splitCharAll sep rest with
      | [] => [[c]]
      | g :: gs => (c :: g) :: gs

/-- Split a character list at the first occurrence of `sep` only (Python
`s.split(sep, 1)`); `none` when `sep` does not occur (where the Python
two-variable unpacking would raise `ValueError`). -/
def splitCharOnce (sep : Char) : List Char → Option (List Char × List Char)
  | [] => none
  | c :: rest =>
    if c = sep then some ([], rest)
    else
      match splitCharOnce sep rest with
      | none => none
      | some (a, b) => some (c :: a, b)

/-- Python `s.splitlines()` for `'\n'`-separated text: like splitting on
`'\n'` but without a trailing empty line when the text ends in `'\n'`
(and `[]` for the empty string). -/
def pySplitlines (s : String) : List String :=
  let gs := splitCharAll '\n' s.data
  (if gs.getLast? = some [] then gs.dropLast else gs).map String.mk

/-- Python `s.strip()`: remove leading and trailing whitespace. -/
def pyStrip (s : String) : String :=
  String.mk (((s.data.dropWhile isSpaceChar).reverse.dropWhile isSpaceChar).reverse)

/-- Python `s.startswith(pre)`. -/
def pyStartsWith (s pre : String) : Bool :=
  pre.data.isPrefixOf s.data

/-- Python `s.endswith(suf)`. -/
def pyEndsWith (s suf : String) : Bool :=
  suf.data.isSuffixOf s.data

/-- Python `sep.join(l)`. -/
def pyJoin (sep : String) : List String → String
  | [] => ""
  | [x] => x
  | x :: xs => x ++ sep ++ pyJoin sep xs

/-- Join character-list groups with a single separator character
(inverse of `splitCharAll`). -/
def joinSep (sep : Char) : List (List Char) → List Char
  | [] => []
  | [g] => g
  | g :: gs => g ++ sep :: joinSep sep gs

/-- First `some` produced by `f` over a list, scanning left to right. -/
def firstSomeMap {α β : Type} (f : α → Option β) : List α → Option β
  | [] => none
  | x :: xs =>
    match f x with
    | some b => some b
    | none => firstSomeMap f xs

/-! ## Digit and number parsing/printing helpers -/

def isDigitChar (c : Char) : Bool := '0' ≤ c && c ≤ '9'

def isOctDigitChar (c : Char) : Bool := '0' ≤ c && c ≤ '7'

def isHexDigitChar (c : Char) : Bool :=
  isDigitChar c || ('a' ≤ c && c ≤ 'f') || ('A' ≤ c && c ≤ 'F')

/-- Value of one hexadecimal digit. -/
def hexDigitVal? (c : Char) : Option Nat :=
  if isDigitChar c then some (c.toNat - 48)
  else if 'a' ≤ c && c ≤ 'f' then some (c.toNat - 87)
  else if 'A' ≤ c && c ≤ 'F' then some (c.toNat - 55)
  else none

def parseHexAux (acc : Nat) : List Char → Option Nat
  | [] => some acc
  | c :: rest =>
    match hexDigitVal? c with
    | none => none
    | some d => parseHexAux (acc * 16 + d) rest

/-- Python `int(s, 16)` restricted to plain strings of hexadecimal digits
(the only shape occurring in `/proc/net/tcp`-style fields); `none` models
the `ValueError` raised on an empty or non-hexadecimal string. -/
def parseHex? (s : String) : Option Nat :=
  if s.data.isEmpty then none else parseHexAux 0 s.data

def parseDecAux (acc : Nat) : List Char → Option Nat
  | [] => some acc
  | c :: rest =>
    if isDigitChar c then parseDecAux (acc * 10 + (c.toNat - 48)) rest
    else none

/-- Parse a plain string of decimal digits; `none` on empty/non-digit. -/
def parseDec? (s : String) : Option Nat :=
  if s.data.isEmpty then none else parseDecAux 0 s.data

/-- Decimal value of a digit list (meaningful when all are digits). -/
def decVal (cs : List Char) : Nat :=
  cs.foldl (fun acc c => acc * 10 + (c.toNat - 48)) 0

/-- Uppercase hexadecimal digit character for `n < 16`. -/
def hexDigitChar (n : Nat) : Char :=
  if n < 10 then Char.ofNat (48 + n) else Char.ofNat (55 + n)

/-- Canonical 8-hex-digit (uppercase, zero-padded) rendering of a 32-bit
value, the form used by the kernel connection tables. -/
def toHex8 (n : Nat) : String :=
  String.mk [hexDigitChar ((n >>> 28) &&& 15), hexDigitChar ((n >>> 24) &&& 15),
             hexDigitChar ((n >>> 20) &&& 15), hexDigitChar ((n >>> 16) &&& 15),
             hexDigitChar ((n >>> 12) &&& 15), hexDigitChar ((n >>> 8) &&& 15),
             hexDigitChar ((n >>> 4) &&& 15), hexDigitChar (n &&& 15)]

/-- Canonical 4-hex-digit rendering of a 16-bit value (port fields). -/
def toHex4 (n : Nat) : String :=
  String.mk [hexDigitChar ((n >>> 12) &&& 15), hexDigitChar ((n >>> 8) &&& 15),
             hexDigitChar ((n >>> 4) &&& 15), hexDigitChar (n &&& 15)]

/-! ## Connection table parsing (`class Connection`)

`Connection.__init__` takes a whitespace-split row of `/proc/net/{proto}`
and stores protocol, decoded local/remote host:port pairs and the mapped
status.  `attribs[i]` on a too-short row raises `IndexError`; that and the
`ValueError`s of `_map_hostport` are modelled by `Option`. -/

/-- `Connection._int2host`: render a 32-bit integer as a dotted quad,
little-endian byte order, exactly as
`".".join(map(str, (h >> 0 & 0xff, h >> 8 & 0xff, h >> 16 & 0xff, h >> 24 & 0xff)))`. -/
def int2host (host : Nat) : String :=
  pyJoin "." (List.map toString
    [(host >>> 0) &&& 0xff, (host >>> 8) &&& 0xff,
     (host >>> 16) &&& 0xff, (host >>> 24) &&& 0xff])

/-- `Connection._map_hostport`: split `"HEXHOST:HEXPORT"` on the first
colon, decode the host via `int2host (int(host, 16))` and the port via
`int(port, 16)`. -/
def map_hostport (attrib : String) : Option (String × Nat) :=
  match splitCharOnce ':' attrib.data with
  | none => none
  | some (h, p) =>
    match parseHex? (String.mk h), parseHex? (String.mk p) with
    | some hv, some pv => some (int2host hv, pv)
    | _, _ => none

/-- `Connection._map_status`: exact two-digit lookup, `UNKNOWN` otherwise. -/
def map_status (attrib : String) : String :=
  if attrib = "01" then "ESTABLISHED"
  else if attrib = "0A" then "LISTENING"
  else if attrib = "10" then "WAITING"
  else "UNKNOWN"

/-- The record built by `Connection.__init__`. -/
structure ConnectionRec where
  proto : String
  lhost : String
  lport : Nat
  rhost : String
  rport : Nat
  status : String
deriving DecidableEq, Repr

/-- `Connection.__init__ proto attribs`: fields 1 and 2 are the local and
remote `host:port`, field 3 the status code. -/
def mkConnection (proto : String) (attribs : List String) : Option ConnectionRec :=
  match attribs.get? 1, attribs.get? 2, attribs.get? 3 with
  | some a1, some a2, some a3 =>
    match map_hostport a1, map_hostport a2 with
    | some (lh, lp), some (rh, rp) =>
      some ⟨proto, lh, lp, rh, rp, map_status a3⟩
    | _, _ => none
  | _, _, _ => none

/-- The connection-table row named by the specification's example. -/
def c6row : String :=
  "1: 0100007F:0050 00000000:0000 0A 00000000:00000000 00:00000000 00000000     0        0 12345 1 ..."

/-- Modelled from the spec: the re-encoding direction of the
hex→dotted-quad→hex round trip, which has no counterpart in the source
(the source only decodes).  A dotted quad `a.b.c.d` is packed little-endian
(`a` is byte 0) into a 32-bit value and rendered as 8 uppercase hex
digits. -/
def host2hex (s : String) : Option String :=
  match (splitCharAll '.' s.data).map (fun cs => parseDec? (String.mk cs)) with
  | [some a, some b, some c, some d] =>
    if a < 256 && b < 256 && c < 256 && d < 256 then
      some (toHex8 (a + b * 256 + c * 65536 + d * 16777216))
    else none
  | _ => none

/-! ## Nameserver resolution (`Netconf.get_nameserver`)

The query reads three sources in order: the config-store text for the
interface (`conffiles.Interfaces().conf[ifname]`, a `dict` lookup — see
`get_ifmethod`'s `conf.has_key(ifname)` — that raises `KeyError` on a
missing key), the files of the resolvconf run directory, and
`/etc/resolv.conf`.  The filesystem state is an explicit environment;
file contents are modelled as line lists (what `readlines` yields, with
newlines already stripped — the lines are only ever `strip`ped and
prefix-tested, so this is behaviour-preserving).  Python exceptions that
can escape the query are modelled by `Except PyExc`. -/

/-- The Python exceptions that the read-only queries can raise. -/
inductive PyExc where
  | keyError : PyExc
  | ioError : PyExc
  | indexError : PyExc
deriving DecidableEq, Repr

/-- Environment of `get_nameserver`: the config store (per-interface text,
`none` = no entry), whether `/etc/resolvconf/run/interface` exists, its
directory listing and file contents, and the lines of `/etc/resolv.conf`
(`none` = file missing, where Python's `file(path)` raises `IOError`). -/
structure NsEnv where
  conf : String → Option String
  runDirExists : Bool
  runDirEntries : List String
  runDirFile : String → List String
  resolvConf : Option (List String)

/-- The inner `_parse_resolv(path)`: first argument of the first line
starting with `nameserver`; `none` of the contents models a missing file
(`IOError`); a `nameserver` line with no second word raises `IndexError`
(`line.strip().split()[1]`). -/
def parse_resolv (contents : Option (List String)) : Except PyExc (Option String) :=
  match contents with
  | none => .error .ioError
  | some lines =>
    match lines.find? (fun l => pyStartsWith l "nameserver") with
    | none => .ok none
    | some line =>
      match (pyWords (pyStrip line)).get? 1 with
      | none => .error .indexError
      | some ns => .ok (some ns)

/-- The static step of `get_nameserver`: scan the config-store text's
lines; a stripped line starting with `dns-nameservers` returns
`line.split()[1]` (raising `IndexError` when there is no argument). -/
def staticLookup : List String → Except PyExc (Option String)
  | [] => .ok none
  | l :: rest =>
    let l2 := pyStrip l
    if pyStartsWith l2 "dns-nameservers" then
      match (pyWords l2).get? 1 with
      | none => .error .indexError
      | some ns => .ok (some ns)
    else staticLookup rest

/-- The dynamic step of `get_nameserver`: scan the run-directory entries in
order, skipping names that do not start with the interface name or that end
in `.inet`; parse each candidate as a resolver file and return the first
nameserver found (a candidate with no nameserver line is skipped). -/
def dynScan (env : NsEnv) (ifname : String) : List String → Except PyExc (Option String)
  | [] => .ok none
  | f :: rest =>
    if !(pyStartsWith f ifname) || pyEndsWith f ".inet" then dynScan env ifname rest
    else
      match parse_resolv (some (env.runDirFile f)) with
      | .error e => .error e
      | .ok (some ns) => .ok (some ns)
      | .ok none => dynScan env ifname rest

/-- `Netconf.get_nameserver`: static config entry, then resolvconf run
directory (only if it exists), then `/etc/resolv.conf`. -/
def get_nameserver (env : NsEnv) (ifname : String) : Except PyExc (Option String) :=
  match env.conf ifname with
  | none => .error .keyError
  | some t =>
    match staticLookup (pySplitlines t) with
    | .error e => .error e
    | .ok (some ns) => .ok (some ns)
    | .ok none =>
      match (if env.runDirExists then dynScan env ifname env.runDirEntries else .ok none) with
      | .error e => .error e
      | .ok (some ns) => .ok (some ns)
      | .ok none => parse_resolv env.resolvConf

/-! ## Gateway lookup (`Netconf.get_gateway`)

The source runs `route -n` and, per output line, evaluates
`re.search('^0.0.0.0\s+(.*?)\s+(.*)\s+%s' % ifname, line)`, returning
`group(1)` of the first matching line.  The matcher below implements that
regex faithfully, including Python's backtracking order (which determines
the reported group): the dots of `0.0.0.0` are *wildcards* (unescaped `.`),
`^` anchors at the line start (the lines contain no newline, so `re.M` is
inert), each `\s+` is greedy, `(.*?)` is lazy, `(.*)` is greedy, and the
interface name needs only to occur after whitespace — the pattern is not
anchored at the end of the line. -/

/-- Does `name` followed by anything match here after optional further
whitespace?  (The continuation of `\s+NAME` after one whitespace char.) -/
def wsNameSkip (name : List Char) : List Char → Bool
  | [] => name.isPrefixOf []
  | c :: rest => name.isPrefixOf (c :: rest) || (isSpaceChar c && wsNameSkip name rest)

/-- Does `\s+NAME` (then anything) match a prefix of the input? -/
def wsNameAt (name : List Char) : List Char → Bool
  | [] => false
  | c :: rest => isSpaceChar c && wsNameSkip name rest

/-- Does `(.*)\s+NAME` (then anything) match the input? -/
def dotStarWsName (name : List Char) : List Char → Bool
  | [] => false
  | c :: rest => wsNameAt name (c :: rest) || dotStarWsName name rest

/-- Does `\s+(.*)\s+NAME` (then anything) match the input? -/
def wsThenDotStarWsName (name : List Char) : List Char → Bool
  | [] => false
  | c :: rest => isSpaceChar c && dotStarWsName name rest

/-- Lazy group 1: grow `(.*?)` from the empty string until the rest of the
pattern (`\s+(.*)\s+NAME`) matches the remaining input; `acc` holds the
group candidate reversed. -/
def tryG1 (name acc : List Char) : List Char → Option (List Char)
  | [] => if wsThenDotStarWsName name [] then some acc.reverse else none
  | c :: rest =>
    if wsThenDotStarWsName name (c :: rest) then some acc.reverse
    else tryG1 name (c :: acc) rest

/-- Length of the leading whitespace run. -/
def wsRunLen : List Char → Nat
  | [] => 0
  | c :: rest => if isSpaceChar c then wsRunLen rest + 1 else 0

/-- Greedy first `\s+`: try consuming `k` whitespace characters for `k`
from the maximal run length down to 1, exploring all lazy group-1 choices
for each before giving back a character. -/
def tryW1 (name cs : List Char) : Nat → Option (List Char)
  | 0 => none
  | k + 1 =>
    match tryG1 name [] (cs.drop (k + 1)) with
    | some g => some g
    | none => tryW1 name cs k

/-- The `^0.0.0.0` head of the pattern: `0`, any char, `0`, any char, `0`,
any char, `0` (the unescaped dots match any character). -/
def matchDest : List Char → Option (List Char)
  | '0' :: _ :: '0' :: _ :: '0' :: _ :: '0' :: rest => some rest
  | _ => none

/-- Group 1 of `re.search('^0.0.0.0\s+(.*?)\s+(.*)\s+%s' % ifname, line)`,
or `none` when the line does not match. -/
def routeLineMatch (ifname line : String) : Option String :=
  match matchDest line.data with
  | none => none
  | some rest => (tryW1 ifname.data rest (wsRunLen rest)).map String.mk

/-- The per-line scan of `get_gateway`: first matching line wins. -/
def scanRouteLines (ifname : String) : List String → Option String
  | [] => none
  | l :: rest =>
    match routeLineMatch ifname l with
    | some g => some g
    | none => scanRouteLines ifname rest

/-- `Netconf.get_gateway`: `routeOutput` is the captured output of
`route -n` (`none` when the command raised `ExecError`, which the query
swallows). -/
def get_gateway (routeOutput : Option String) (ifname : String) : Option String :=
  match routeOutput with
  | none => none
  | some out => scanRouteLines ifname (pySplitlines out)

/-- The claim's reading of the route query, written from the spec's words:
return the gateway (second) field of the first line whose destination
(first) field is exactly `0.0.0.0` and whose trailing field equals the
queried interface name. -/
def get_gateway_spec (routeOutput : Option String) (ifname : String) : Option String :=
  match routeOutput with
  | none => none
  | some out =>
    firstSomeMap
      (fun l =>
        let fs := pyWords l
        if fs.head? = some "0.0.0.0" && fs.getLast? = some ifname then fs.get? 1
        else none)
      (pySplitlines out)

/-- Routing-table text for the specification's example, with the usual
`route -n` header lines. -/
def c4output : String :=
  "Kernel IP routing table\nDestination     Gateway         Genmask         Flags Metric Ref    Use Iface\n0.0.0.0   192.168.1.1   0.0.0.0   UG    0   0   0   eth0"

/-- A route line whose trailing interface field is `eth01`, not `eth0`. -/
def c4line : String :=
  "0.0.0.0   10.0.0.1   0.0.0.0   UG   0   0   0   eth01"

/-! ## Mutating interface operations

`unconfigure_if`, `set_static` and `set_dhcp` drive the collaborators
(`ifdown`/`ifup`/`ifconfig` via `executil`, and the config store's
`set_manual`/`set_static`/`set_dhcp`).  Each collaborator call is an
`Event`; the environment decides whether a call succeeds or raises (the
raised exception is carried already stringified, which is all
`except Exception, e: return str(e)` observes).  Each operation returns
the Python return value (`none` = Python `None`, `some msg` = the
stringified error) together with the list of collaborator calls it issued,
in order. -/

/-- One collaborator call made by a mutating operation. -/
inductive Event where
  | ifdownE : String → Event
  | ifupE : String → Event
  | setManualE : String → Event
  | setStaticE : String → String → String → String → String → Event
  | setDhcpE : String → Event
  | systemE : String → Event
deriving DecidableEq, Repr

/-- Environment of the mutating operations: the outcome of each
collaborator call, the output captured from a successful `ifup`, and the
address `Netconf(ifname).addr` reports after DHCP (`none` = no address). -/
structure MutEnv where
  behavior : Event → Except String Unit
  ifupOutput : String → String
  ifaddr : String → Option String

/-- First error in a list of step outcomes (the value a trailing
`except Exception` catch-all returns), `none` when every step succeeded. -/
def firstError : List (Except String Unit) → Option String
  | [] => none
  | .ok _ :: rest => firstError rest
  | .error m :: _ => some m

/-- Number of steps a fail-fast sequence attempts: every step up to and
including the first failing one. -/
def attemptedCount : List (Except String Unit) → Nat
  | [] => 0
  | .ok _ :: rest => attemptedCount rest + 1
  | .error _ :: _ => 1

/-- The collaborator-call sequence of `unconfigure_if`. -/
def unconfigureSteps (ifname : String) : List Event :=
  [Event.ifdownE ifname, Event.setManualE ifname,
   Event.systemE ("ifconfig " ++ ifname ++ " 0.0.0.0"), Event.ifupE ifname]

/-- `unconfigure_if(ifname)`: `ifdown` → `set_manual` →
`ifconfig <ifname> 0.0.0.0` → `ifup`, under a catch-all returning
`str(e)`.  (Constructing `conffiles.Interfaces()` is not modelled as a
fallible step; it is the store handle the spec assumes.) -/
def unconfigure_if (env : MutEnv) (ifname : String) : Option String × List Event :=
  let e1 := Event.ifdownE ifname
  match env.behavior e1 with
  | .error m => (some m, [e1])
  | .ok _ =>
    let e2 := Event.setManualE ifname
    match env.behavior e2 with
    | .error m => (some m, [e1, e2])
    | .ok _ =>
      let e3 := Event.systemE ("ifconfig " ++ ifname ++ " 0.0.0.0")
      match env.behavior e3 with
      | .error m => (some m, [e1, e2, e3])
      | .ok _ =>
        let e4 := Event.ifupE ifname
        match env.behavior e4 with
        | .error m => (some m, [e1, e2, e3, e4])
        | .ok _ => (none, [e1, e2, e3, e4])

/-- The collaborator-call sequence of `set_static`. -/
def setStaticSteps (ifname addr netmask gateway nameserver : String) : List Event :=
  [Event.ifdownE ifname, Event.setStaticE ifname addr netmask gateway nameserver,
   Event.ifupE ifname]

/-- `set_static(ifname, addr, netmask, gateway, nameserver)`: `ifdown` →
store a static block → `ifup`, under the same catch-all. -/
def set_static (env : MutEnv) (ifname addr netmask gateway nameserver : String) :
    Option String × List Event :=
  let e1 := Event.ifdownE ifname
  match env.behavior e1 with
  | .error m => (some m, [e1])
  | .ok _ =>
    let e2 := Event.setStaticE ifname addr netmask gateway nameserver
    match env.behavior e2 with
    | .error m => (some m, [e1, e2])
    | .ok _ =>
      let e3 := Event.ifupE ifname
      match env.behavior e3 with
      | .error m => (some m, [e1, e2, e3])
      | .ok _ => (none, [e1, e2, e3])

/-- The collaborator-call sequence of `set_dhcp`. -/
def setDhcpSteps (ifname : String) : List Event :=
  [Event.ifdownE ifname, Event.setDhcpE ifname, Event.ifupE ifname]

/-- The address verification at the end of `set_dhcp`, as a step outcome:
`raise Error('Error obtaining IP address\n\n%s' % output)` when
`Netconf(ifname).addr` is falsy (a Python 2 `Error(msg)` stringifies to
`msg`). -/
def dhcpAddrCheck (env : MutEnv) (ifname : String) : Except String Unit :=
  match env.ifaddr ifname with
  | none => .error ("Error obtaining IP address\n\n" ++ env.ifupOutput ifname)
  | some _ => .ok ()

/-- `set_dhcp(ifname)`: `ifdown` → store dhcp method → `ifup` (capturing
its output) → re-query the address and raise a descriptive `Error` when
none was obtained, all under the same catch-all. -/
def set_dhcp (env : MutEnv) (ifname : String) : Option String × List Event :=
  let e1 := Event.ifdownE ifname
  match env.behavior e1 with
  | .error m => (some m, [e1])
  | .ok _ =>
    let e2 := Event.setDhcpE ifname
    match env.behavior e2 with
    | .error m => (some m, [e1, e2])
    | .ok _ =>
      let e3 := Event.ifupE ifname
      match env.behavior e3 with
      | .error m => (some m, [e1, e2, e3])
      | .ok _ =>
        match dhcpAddrCheck env ifname with
        | .error m => (some m, [e1, e2, e3])
        | .ok _ => (none, [e1, e2, e3])

/-! ## `get_ifmethod`

`re.match(".*\niface %s inet (.*)" % ifname, conf[ifname])` with neither
`re.M` nor `re.S`: `.*` cannot cross a newline, so the pattern's `\n` can
only match the *first* newline of the text, forcing `iface <name> inet `
to sit at the start of the second line; the trailing `(.*)` captures the
rest of that line (stopping before the next newline).  Interface names
such as `eth0` contain no regex metacharacters, so the interpolated name
matches literally. -/

/-- `get_ifmethod(ifname)`: `None` when the store has no entry
(`conf.has_key`), else the regex match described above. -/
def get_ifmethod (conf : String → Option String) (ifname : String) : Option String :=
  match conf ifname with
  | none => none
  | some text =>
    match splitCharOnce '\n' text.data with
    | none => none
    | some (_, rest) =>
      let pat := ("iface " ++ ifname ++ " inet ").data
      if pat.isPrefixOf rest then
        some (String.mk ((rest.drop pat.length).takeWhile (fun c => c ≠ '\n')))
      else none

/-- The claim's reading of `get_ifmethod`, written from the spec's words:
the method token of *any* line of the stored text matching
`iface <name> inet <method>`. -/
def get_ifmethod_spec (conf : String → Option String) (ifname : String) : Option String :=
  match conf ifname with
  | none => none
  | some text =>
    firstSomeMap
      (fun l =>
        let pat := ("iface " ++ ifname ++ " inet ").data
        if pat.isPrefixOf l.data then some (String.mk (l.data.drop pat.length))
        else none)
      (pySplitlines text)

/-! ## `is_ipaddr`

`is_ipaddr(ip)` is
`re.match(ipv4, ip)` followed by `socket.inet_aton(ip)` (failure of either
gives `False`; the `socket.error` is caught).

The regex `^(25[0-5]|2[0-4]\d|[0-1]?\d?\d)(\.(25[0-5]|2[0-4]\d|[0-1]?\d?\d)){3}$`
is modelled by its language: no alternative matches a `.` or a newline, so
a matching string decomposes uniquely into four components at the dots,
and each component alternation matches exactly the strings of one to three
decimal digits whose value is at most 255.  Python's `$` (without `re.M`)
matches at the end of the string *or just before a trailing newline*, so
the regex also accepts a valid quad followed by one final `'\n'`.

`socket.inet_aton` is the C library's.  It is modelled from glibc (the
libc of the Debian systems this program targets): components are parsed
with `strtoul(cp, &end, 0)` — so a leading `0` selects octal and a leading
`0x` hexadecimal — separated by `'.'` (at most 4 parts), the character
after the last component must be NUL or whitespace, parts stored at a dot
must fit in a byte, and the final value must fit in the bytes remaining
for the part count. -/

/-- `strtoul` base-10 run (caller has seen a leading digit). -/
def decRun (acc : Nat) : List Char → Nat × List Char
  | [] => (acc, [])
  | c :: rest =>
    if isDigitChar c then decRun (acc * 10 + (c.toNat - 48)) rest
    else (acc, c :: rest)

/-- `strtoul` base-8 run. -/
def octRun (acc : Nat) : List Char → Nat × List Char
  | [] => (acc, [])
  | c :: rest =>
    if isOctDigitChar c then octRun (acc * 8 + (c.toNat - 48)) rest
    else (acc, c :: rest)

/-- `strtoul` base-16 run. -/
def hexRun (acc : Nat) : List Char → Nat × List Char
  | [] => (acc, [])
  | c :: rest =>
    match hexDigitVal? c with
    | some d => hexRun (acc * 16 + d) rest
    | none => (acc, c :: rest)

/-- Continuation of `strtoul(cp, &end, 0)` after a leading `0`: `0x`/`0X`
followed by a hex digit switches to base 16, otherwise the remaining octal
run is parsed (possibly empty, value 0).  (`"0x"` with no hex digit after
parses just the `"0"`.) -/
def strtoul0_zero : List Char → Nat × List Char
  | [] => (0, [])
  | c2 :: rest2 =>
    if c2 = 'x' || c2 = 'X' then
      match rest2 with
      | [] => (0, c2 :: rest2)
      | d :: _ => if isHexDigitChar d then hexRun 0 rest2 else (0, c2 :: rest2)
    else octRun 0 (c2 :: rest2)

/-- `strtoul(cp, &end, 0)` on input starting with a digit: base detection
(`0x` hex, `0` octal, else decimal), returning the parsed value and the
rest. -/
def strtoul0 : List Char → Nat × List Char
  | [] => (0, [])
  | c :: rest =>
    if c = '0' then strtoul0_zero rest
    else decRun 0 (c :: rest)

/-- Largest value allowed for the final component, indexed by the number
of dots still allowed (glibc's `max[4]` table: `3` left = 1-part form may
use all 32 bits, `0` left = 4-part form, final part fits one byte). -/
def atonMax : Nat → Nat
  | 3 => 4294967295
  | 2 => 16777215
  | 1 => 65535
  | _ => 255

/-- The component loop of glibc `inet_aton`: `partsLeft` counts the dots
still allowed (glibc stores at most 3 parts before the final component,
each stored part must fit a byte); after the last component only NUL or a
whitespace first character may follow. -/
def inet_aton_core (partsLeft : Nat) : List Char → Bool
  | [] => false
  | c :: cs =>
    if !isDigitChar c then false
    else
      match strtoul0 (c :: cs) with
      | (val, rest) =>
        if val > 4294967295 then false
        else
          match rest with
          | [] => decide (val ≤ atonMax partsLeft)
          | c2 :: rest2 =>
            if c2 = '.' then
              match partsLeft with
              | 0 => false
              | pl + 1 => if val > 255 then false else inet_aton_core pl rest2
            else isSpaceChar c2 && decide (val ≤ atonMax partsLeft)

/-- `socket.inet_aton(s)` succeeding, glibc semantics. -/
def inet_aton_ok (s : String) : Bool :=
  inet_aton_core 3 s.data

/-- One regex component: one to three decimal digits, value at most 255
(the language of `25[0-5]|2[0-4]\d|[0-1]?\d?\d`). -/
def compOK (cs : List Char) : Bool :=
  !cs.isEmpty && cs.length ≤ 3 && cs.all isDigitChar && decide (decVal cs ≤ 255)

/-- Four dot-separated regex components. -/
def quadOK (cs : List Char) : Bool :=
  match splitCharAll '.' cs with
  | [a, b, c, d] => compOK a && compOK b && compOK c && compOK d
  | _ => false

/-- `re.match(ipv4, s)` succeeding: the whole string is a component quad,
or a component quad followed by a single trailing newline (Python `$`). -/
def ipv4match (s : String) : Bool :=
  quadOK s.data ||
    (match s.data.getLast? with
     | some c => c = '\n' && quadOK s.data.dropLast
     | none => false)

/-- `is_ipaddr(ip)`: regex filter then `inet_aton` check; both failure
modes return `False`, nothing escapes. -/
def is_ipaddr (ip : String) : Bool :=
  ipv4match ip && inet_aton_ok ip

/-- The claim's reading of `is_ipaddr`, written from the claim's words:
exactly four dot-separated decimal components, each of one to three digits
with numeric value at most 255. -/
def is_ipaddr_claim (s : String) : Bool :=
  quadOK s.data

/-- A component is parsed whole by `strtoul` base 0: either it does not
start with `0`, or everything after the leading `0` is an octal digit. -/
def octalClean (cs : List Char) : Bool :=
  match cs with
  | [] => true
  | c :: rest => if c = '0' then rest.all isOctDigitChar else true

/-! ## General lemmas about the helpers -/

theorem data_mk (l : List Char) : (String.mk l).data = l := rfl

theorem land_255 (n : Nat) : n &&& 255 = n % 256 := by
  have h := Nat.and_pow_two_sub_one_eq_mod n 8
  norm_num at h
  exact h

theorem land_15 (n : Nat) : n &&& 15 = n % 16 := by
  have h := Nat.and_pow_two_sub_one_eq_mod n 4
  norm_num at h
  exact h

theorem land_15_lt (n : Nat) : n &&& 15 < 16 := by
  rw [land_15]
  exact Nat.mod_lt _ (by norm_num)

theorem hexDigitVal_hexDigitChar (d : Nat) (h : d < 16) :
    hexDigitVal? (hexDigitChar d) = some d := by
  interval_cases d <;> decide

theorem splitCharOnce_append (sep : Char) (a b : List Char) (h : sep ∉ a) :
    splitCharOnce sep (a ++ sep :: b) = some (a, b) := by
  induction a with
  | nil => simp [splitCharOnce]
  | cons c cs ih =>
    have hc : ¬ c = sep := fun e => h (e ▸ List.mem_cons_self c cs)
    simp only [List.cons_append, splitCharOnce, if_neg hc, List.append_eq,
      ih (fun hm => h (List.mem_cons_of_mem _ hm))]

theorem splitCharAll_no_sep (sep : Char) (a : List Char) (h : sep ∉ a) :
    splitCharAll sep a = [a] := by
  induction a with
  | nil => rfl
  | cons c cs ih =>
    have hc : ¬ c = sep := fun e => h (e ▸ List.mem_cons_self c cs)
    simp only [splitCharAll, if_neg hc, ih (fun hm => h (List.mem_cons_of_mem _ hm))]

theorem splitCharAll_append (sep : Char) (a r : List Char) (h : sep ∉ a) :
    splitCharAll sep (a ++ sep :: r) = a :: splitCharAll sep r := by
  induction a with
  | nil => simp [splitCharAll]
  | cons c cs ih =>
    have hc : ¬ c = sep := fun e => h (e ▸ List.mem_cons_self c cs)
    have ih2 := ih (fun hm => h (List.mem_cons_of_mem _ hm))
    simp only [List.cons_append, splitCharAll, if_neg hc, List.append_eq, ih2]

theorem splitCharAll_ne_nil (sep : Char) (cs : List Char) :
    splitCharAll sep cs ≠ [] := by
  cases cs with
  | nil => simp [splitCharAll]
  | cons c rest =>
    simp only [splitCharAll]
    by_cases hc : c = sep
    · simp [hc]
    · simp only [if_neg hc]
      cases h : splitCharAll sep rest <;> simp

/-- `splitCharAll` inverts to `joinSep`, and no group contains the
separator. -/
theorem splitCharAll_inv (sep : Char) (cs : List Char) :
    joinSep sep (splitCharAll sep cs) = cs ∧
      ∀ g ∈ splitCharAll sep cs, sep ∉ g := by
  induction cs with
  | nil => simp [splitCharAll, joinSep]
  | cons c rest ih =>
    by_cases hc : c = sep
    · subst hc
      simp only [splitCharAll, if_pos rfl]
      have hne := splitCharAll_ne_nil c rest
      constructor
      · cases h : splitCharAll c rest with
        | nil => exact absurd h hne
        | cons g gs => simpa [joinSep, h] using (h ▸ ih.1)
      · intro g hg
        rcases List.mem_cons.mp hg with h | h
        · subst h; simp
        · exact ih.2 g h
    · simp only [splitCharAll, if_neg hc]
      cases h : splitCharAll sep rest with
      | nil => exact absurd h (splitCharAll_ne_nil sep rest)
      | cons g gs =>
        have ih1 := h ▸ ih.1
        have ih2 := h ▸ ih.2
        constructor
        · cases gs with
          | nil => simpa [joinSep] using congrArg (c :: ·) (by simpa [joinSep] using ih1)
          | cons g2 gs2 => simpa [joinSep] using congrArg (c :: ·) (by simpa [joinSep] using ih1)
        · intro g2 hg2
          rcases List.mem_cons.mp hg2 with h2 | h2
          · subst h2
            intro hmem
            rcases List.mem_cons.mp hmem with h3 | h3
            · exact hc h3.symm
            · exact ih2 g (List.mem_cons_self g gs) h3
          · exact ih2 g2 (List.mem_cons_of_mem g h2)

/-- Table of facts about the decimal rendering of a byte, verified by
evaluation: it contains no separator characters and `parseDec?` inverts
it. -/
theorem byte_toString_facts :
    ((List.range 256).all fun b =>
      !(toString b).data.contains '.' && !(toString b).data.contains ':' &&
        parseDec? (toString b) == some b) = true := by decide

theorem byte_facts_split (b : Nat) (h : b < 256) :
    ('.' ∉ (toString b).data ∧ ':' ∉ (toString b).data) ∧
      parseDec? (toString b) = some b := by
  have := List.all_eq_true.mp byte_toString_facts b (List.mem_range.mpr h)
  simpa using this

theorem byte_no_dot (b : Nat) (h : b < 256) : '.' ∉ (toString b).data :=
  (byte_facts_split b h).1.1

theorem byte_parseDec (b : Nat) (h : b < 256) : parseDec? (toString b) = some b :=
  (byte_facts_split b h).2

theorem mk_data (s : String) : String.mk s.data = s := rfl

theorem hexDigitChar_ne_colon (m : Nat) : hexDigitChar (m &&& 15) ≠ ':' := by
  have h := land_15_lt m
  set d := m &&& 15 with hd
  clear_value d
  interval_cases d <;> decide

theorem parseHex_toHex8 (n : Nat) (h : n < 4294967296) :
    parseHex? (toHex8 n) = some n := by
  show parseHex? (toHex8 n) = some n
  unfold toHex8 parseHex?
  simp only [data_mk, List.isEmpty_cons, Bool.false_eq_true, if_false, parseHexAux,
    hexDigitVal_hexDigitChar _ (land_15_lt _)]
  simp only [land_15, Nat.shiftRight_eq_div_pow, Option.some.injEq]
  omega

theorem parseHex_toHex4 (n : Nat) (h : n < 65536) :
    parseHex? (toHex4 n) = some n := by
  unfold toHex4 parseHex?
  simp only [data_mk, List.isEmpty_cons, Bool.false_eq_true, if_false, parseHexAux,
    hexDigitVal_hexDigitChar _ (land_15_lt _)]
  simp only [land_15, Nat.shiftRight_eq_div_pow, Option.some.injEq]
  omega

theorem toHex8_no_colon (n : Nat) : ':' ∉ (toHex8 n).data := by
  intro hm
  simp only [toHex8, data_mk, List.mem_cons, List.not_mem_nil, or_false] at hm
  rcases hm with h | h | h | h | h | h | h | h <;> exact hexDigitChar_ne_colon _ h.symm

theorem map_hostport_canonical (h p : Nat) (hh : h < 4294967296) (hp : p < 65536) :
    map_hostport (toHex8 h ++ ":" ++ toHex4 p) = some (int2host h, p) := by
  have hsplit : splitCharOnce ':' (toHex8 h ++ ":" ++ toHex4 p).data
      = some ((toHex8 h).data, (toHex4 p).data) := by
    rw [String.data_append, String.data_append]
    have : (toHex8 h).data ++ (":" : String).data ++ (toHex4 p).data
        = (toHex8 h).data ++ ':' :: (toHex4 p).data := by
      simp
    rw [this]
    exact splitCharOnce_append ':' _ _ (toHex8_no_colon h)
  unfold map_hostport
  rw [hsplit]
  simp only [mk_data, parseHex_toHex8 h hh, parseHex_toHex4 p hp]

theorem int2host_eq (h : Nat) :
    int2host h =
      toString ((h >>> 0) &&& 255) ++ "." ++ toString ((h >>> 8) &&& 255) ++ "." ++
        toString ((h >>> 16) &&& 255) ++ "." ++ toString ((h >>> 24) &&& 255) := by
  simp [int2host, pyJoin, String.append_assoc]

theorem byte_land_lt (m : Nat) : m &&& 255 < 256 := by
  rw [land_255]
  exact Nat.mod_lt _ (by norm_num)

theorem host2hex_int2host (n : Nat) (h : n < 4294967296) :
    host2hex (int2host n) = some (toHex8 n) := by
  have hdata : (int2host n).data
      = (toString ((n >>> 0) &&& 255)).data ++ '.' ::
        ((toString ((n >>> 8) &&& 255)).data ++ '.' ::
         ((toString ((n >>> 16) &&& 255)).data ++ '.' ::
          (toString ((n >>> 24) &&& 255)).data)) := by
    simp [int2host, pyJoin, String.data_append]
  unfold host2hex
  rw [hdata,
      splitCharAll_append '.' _ _ (byte_no_dot _ (byte_land_lt _)),
      splitCharAll_append '.' _ _ (byte_no_dot _ (byte_land_lt _)),
      splitCharAll_append '.' _ _ (byte_no_dot _ (byte_land_lt _)),
      splitCharAll_no_sep '.' _ (byte_no_dot _ (byte_land_lt _))]
  simp only [List.map, mk_data, byte_parseDec _ (byte_land_lt _)]
  have harg : ((n >>> 0) &&& 255) + ((n >>> 8) &&& 255) * 256 +
      ((n >>> 16) &&& 255) * 65536 + ((n >>> 24) &&& 255) * 16777216 = n := by
    simp only [land_255, Nat.shiftRight_eq_div_pow]
    omega
  rw [if_pos (by simp [byte_land_lt]), harg]

/-! ## Claim C6 -/

/-- C6: for every well-formed connection-table row, the parser splits the
local and remote fields on the colon, decodes the host as a hex-encoded
32-bit integer rendered as four little-endian octets joined with dots
(byte 0 = bits 0–7, byte 1 = bits 8–15, byte 2 = bits 16–23,
byte 3 = bits 24–31) and the port as hex parsed to decimal; the
specification's example row yields local host `127.0.0.1`, local port 80
and status `LISTENING`. -/
theorem connection_row_parsing :
    (∀ h : Nat, int2host h =
      toString ((h >>> 0) &&& 255) ++ "." ++ toString ((h >>> 8) &&& 255) ++ "." ++
        toString ((h >>> 16) &&& 255) ++ "." ++ toString ((h >>> 24) &&& 255)) ∧
    (∀ h p : Nat, h < 4294967296 → p < 65536 →
      map_hostport (toHex8 h ++ ":" ++ toHex4 p) = some (int2host h, p)) ∧
    (mkConnection "tcp" (pyWords c6row)).map (fun r => (r.lhost, r.lport, r.status))
      = some ("127.0.0.1", 80, "LISTENING") :=
  ⟨int2host_eq, map_hostport_canonical, by decide⟩

/-- Witness for C6: the canonical host:port encoding of `127.0.0.1:80`
decodes as claimed. -/
theorem connection_row_parsing_witness :
    map_hostport (toHex8 16777343 ++ ":" ++ toHex4 80) = some (int2host 16777343, 80) :=
  connection_row_parsing.2.1 16777343 80 (by norm_num) (by norm_num)

/-! ## Claim C7 -/

/-- C7: for every valid 8-hex-digit host encoding (canonically, `toHex8 n`
for a 32-bit `n`), decoding it into a dotted quad with the source's
little-endian octet extraction and re-encoding the dotted quad back into
8 hex digits yields the original encoding: the hex→dotted-quad→hex round
trip is the identity on the canonical form. -/
theorem hex_host_roundtrip (n : Nat) (h : n < 4294967296) :
    ((parseHex? (toHex8 n)).map int2host).bind host2hex = some (toHex8 n) := by
  rw [parseHex_toHex8 n h]
  exact host2hex_int2host n h

/-- Witness for C7: the round trip at the encoding of `127.0.0.1`. -/
theorem hex_host_roundtrip_witness :
    16777343 < 4294967296 ∧
      ((parseHex? (toHex8 16777343)).map int2host).bind host2hex
        = some (toHex8 16777343) :=
  ⟨by norm_num, hex_host_roundtrip 16777343 (by norm_num)⟩

/-! ## Claim C1 -/

/-- C1: for every interface name the nameserver query resolves in the
fixed precedence (1) static `dns-nameservers` entry in the config-store
text, (2) first usable file of the dynamic-resolver run directory whose
name starts with the interface name and does not end in `.inet`,
(3) the global fallback resolver file, stopping at the first success; in
particular a static `dns-nameservers 8.8.8.8` entry for `eth0` makes the
query return `8.8.8.8` regardless of the contents of any resolver file. -/
theorem nameserver_precedence :
    (∀ (env : NsEnv) (ifname t ns : String), env.conf ifname = some t →
      staticLookup (pySplitlines t) = .ok (some ns) →
      get_nameserver env ifname = .ok (some ns)) ∧
    (∀ (env : NsEnv) (ifname t ns : String), env.conf ifname = some t →
      staticLookup (pySplitlines t) = .ok none →
      (if env.runDirExists then dynScan env ifname env.runDirEntries else .ok none)
        = Except.ok (some ns) →
      get_nameserver env ifname = .ok (some ns)) ∧
    (∀ (env : NsEnv) (ifname t : String), env.conf ifname = some t →
      staticLookup (pySplitlines t) = .ok none →
      (if env.runDirExists then dynScan env ifname env.runDirEntries else .ok none)
        = Except.ok none →
      get_nameserver env ifname = parse_resolv env.resolvConf) ∧
    (∀ env : NsEnv, env.conf "eth0" = some "auto eth0\ndns-nameservers 8.8.8.8" →
      get_nameserver env "eth0" = .ok (some "8.8.8.8")) := by
  refine ⟨?_, ?_, ?_, ?_⟩
  · intro env ifname t ns hconf hstat
    simp only [get_nameserver, hconf, hstat]
  · intro env ifname t ns hconf hstat hdyn
    simp only [get_nameserver, hconf, hstat, hdyn]
  · intro env ifname t hconf hstat hdyn
    simp only [get_nameserver, hconf, hstat, hdyn]
  · intro env hconf
    have hstat : staticLookup (pySplitlines "auto eth0\ndns-nameservers 8.8.8.8")
        = Except.ok (some "8.8.8.8") := rfl
    simp only [get_nameserver, hconf, hstat]

/-- Witness for C1: a static `dns-nameservers 8.8.8.8` entry for `eth0`
wins although the run directory and the fallback resolver file name other
servers. -/
theorem nameserver_precedence_witness :
    get_nameserver
      { conf := fun _ => some "auto eth0\ndns-nameservers 8.8.8.8",
        runDirExists := true, runDirEntries := ["eth0.config"],
        runDirFile := fun _ => ["nameserver 4.4.4.4"],
        resolvConf := some ["nameserver 1.1.1.1"] } "eth0"
      = Except.ok (some "8.8.8.8") :=
  nameserver_precedence.2.2.2 _ rfl

/-! ## Claim C5 -/

/-- C5 counterexample: with a config entry containing no static DNS
directive, no resolvconf run directory, and a missing global fallback
resolver file, `get_nameserver` propagates an `IOError` (from
`file('/etc/resolv.conf')`) instead of degrading to an absent result,
refuting the claim that the read-only nameserver query never raises past
its own boundary in this situation. -/
theorem nameserver_missing_file_raises :
    get_nameserver
      { conf := fun _ => some "auto eth0\niface eth0 inet dhcp",
        runDirExists := false, runDirEntries := [], runDirFile := fun _ => [],
        resolvConf := none } "eth0" = Except.error PyExc.ioError := rfl

/-- C5 (amended): the nameserver query degrades to an absent result when
the consulted sources merely lack a `nameserver`/`dns-nameservers` line,
but it raises `KeyError` when the config store has no text for the
interface, and raises `IOError` when the global fallback resolver file is
missing and the earlier steps produced nothing. -/
theorem nameserver_query_error_modes :
    (∀ (env : NsEnv) (ifname : String), env.conf ifname = none →
      get_nameserver env ifname = .error .keyError) ∧
    (∀ (env : NsEnv) (ifname t : String), env.conf ifname = some t →
      staticLookup (pySplitlines t) = .ok none →
      (if env.runDirExists then dynScan env ifname env.runDirEntries else .ok none)
        = Except.ok none →
      env.resolvConf = none →
      get_nameserver env ifname = .error .ioError) ∧
    (∀ (env : NsEnv) (ifname t : String) (lines : List String),
      env.conf ifname = some t →
      staticLookup (pySplitlines t) = .ok none →
      (if env.runDirExists then dynScan env ifname env.runDirEntries else .ok none)
        = Except.ok none →
      env.resolvConf = some lines →
      (∀ l ∈ lines, pyStartsWith l "nameserver" = false) →
      get_nameserver env ifname = .ok none) := by
  refine ⟨?_, ?_, ?_⟩
  · intro env ifname hconf
    simp only [get_nameserver, hconf]
  · intro env ifname t hconf hstat hdyn hrc
    simp only [get_nameserver, hconf, hstat, hdyn, hrc, parse_resolv]
  · intro env ifname t lines hconf hstat hdyn hrc hall
    have hfind : lines.find? (fun l => pyStartsWith l "nameserver") = none :=
      List.find?_eq_none.mpr (fun x hx => by simp [hall x hx])
    simp only [get_nameserver, hconf, hstat, hdyn, hrc, parse_resolv, hfind]

/-- Witness for C5 (amended): a store with no entry for `eth0` makes the
query raise `KeyError`. -/
theorem nameserver_query_error_modes_witness :
    get_nameserver
      { conf := fun _ => none, runDirExists := false, runDirEntries := [],
        runDirFile := fun _ => [], resolvConf := none } "eth0"
      = Except.error PyExc.keyError :=
  nameserver_query_error_modes.1 _ "eth0" rfl

/-! ## Claim C2 -/

/-- C2: for every interface name and every behaviour of the command-runner
and config-store collaborators, each mutating operation (`unconfigure_if`,
`set_static`, `set_dhcp`) never lets an exception reach its caller: its
return value is exactly the first error of its fail-fast step sequence,
stringified — absent when every step succeeds.  (For `set_dhcp` the final
step is the address verification, whose domain error embeds the captured
`ifup` output.) -/
theorem mutators_catch_and_stringify (env : MutEnv)
    (ifname addr netmask gateway nameserver : String) :
    (unconfigure_if env ifname).1
      = firstError ((unconfigureSteps ifname).map env.behavior) ∧
    (set_static env ifname addr netmask gateway nameserver).1
      = firstError
          ((setStaticSteps ifname addr netmask gateway nameserver).map env.behavior) ∧
    (set_dhcp env ifname).1
      = firstError
          ((setDhcpSteps ifname).map env.behavior ++ [dhcpAddrCheck env ifname]) := by
  refine ⟨?_, ?_, ?_⟩
  · simp only [unconfigure_if, unconfigureSteps, List.map]
    cases env.behavior (Event.ifdownE ifname) <;>
      cases env.behavior (Event.setManualE ifname) <;>
        cases env.behavior (Event.systemE ("ifconfig " ++ ifname ++ " 0.0.0.0")) <;>
          cases env.behavior (Event.ifupE ifname) <;>
            simp [firstError]
  · simp only [set_static, setStaticSteps, List.map]
    cases env.behavior (Event.ifdownE ifname) <;>
      cases env.behavior (Event.setStaticE ifname addr netmask gateway nameserver) <;>
        cases env.behavior (Event.ifupE ifname) <;>
          simp [firstError]
  · simp only [set_dhcp, setDhcpSteps, List.map]
    cases env.behavior (Event.ifdownE ifname) <;>
      cases env.behavior (Event.setDhcpE ifname) <;>
        cases env.behavior (Event.ifupE ifname) <;>
          cases hd : dhcpAddrCheck env ifname <;>
            simp [firstError, hd]

/-! ## Claim C3 -/

/-- C3: `set_dhcp` brings the interface down, marks the config entry as
dhcp, brings the interface up capturing its output, and then re-queries
the interface address; when no address was obtained the result is a
non-empty error string that contains the captured bring-up output, and
when an address was obtained (no step having failed) the result is
absent. -/
theorem set_dhcp_verifies_address (env : MutEnv) (ifname output : String)
    (h1 : env.behavior (Event.ifdownE ifname) = .ok ())
    (h2 : env.behavior (Event.setDhcpE ifname) = .ok ())
    (h3 : env.behavior (Event.ifupE ifname) = .ok ())
    (h4 : env.ifupOutput ifname = output) :
    (env.ifaddr ifname = none →
      (set_dhcp env ifname).1 = some ("Error obtaining IP address\n\n" ++ output) ∧
      ("Error obtaining IP address\n\n" ++ output).length ≠ 0 ∧
      ∃ pre : String, "Error obtaining IP address\n\n" ++ output = pre ++ output) ∧
    (∀ a : String, env.ifaddr ifname = some a → (set_dhcp env ifname).1 = none) ∧
    (set_dhcp env ifname).2 = setDhcpSteps ifname := by
  refine ⟨?_, ?_, ?_⟩
  · intro haddr
    refine ⟨?_, ?_, ⟨"Error obtaining IP address\n\n", rfl⟩⟩
    · simp only [set_dhcp, h1, h2, h3, dhcpAddrCheck, haddr, h4]
    · rw [String.length_append]
      have h28 : ("Error obtaining IP address\n\n" : String).length = 28 := by decide
      omega
  · intro a haddr
    simp only [set_dhcp, h1, h2, h3, dhcpAddrCheck, haddr]
  · simp only [set_dhcp, setDhcpSteps, h1, h2, h3, dhcpAddrCheck]
    cases env.ifaddr ifname <;> simp

/-- Witness for C3: with all collaborator calls succeeding and no address
obtained, `set_dhcp` returns the descriptive error embedding the captured
bring-up output. -/
theorem set_dhcp_verifies_address_witness :
    (set_dhcp
      { behavior := fun _ => .ok (), ifupOutput := fun _ => "dhcp negotiation log",
        ifaddr := fun _ => none } "eth0").1
      = some ("Error obtaining IP address\n\n" ++ "dhcp negotiation log") :=
  ((set_dhcp_verifies_address
    { behavior := fun _ => .ok (), ifupOutput := fun _ => "dhcp negotiation log",
      ifaddr := fun _ => none } "eth0" "dhcp negotiation log" rfl rfl rfl rfl).1 rfl).1

/-! ## Claim C8 -/

/-- C8: `unconfigure_if` performs exactly, in order, bring-down, mark the
config entry manual, the direct `ifconfig <ifname> 0.0.0.0` reset, and
bring-up; the calls actually issued are exactly the prefix of that
sequence up to and including the first failing step (so no later step runs
after a failure), and the trace is always a prefix of the forward sequence
(no compensating/undo calls are ever issued). -/
theorem unconfigure_if_sequence (env : MutEnv) (ifname : String) :
    (unconfigure_if env ifname).2
      = (unconfigureSteps ifname).take
          (attemptedCount ((unconfigureSteps ifname).map env.behavior)) ∧
    (unconfigure_if env ifname).2 <+: unconfigureSteps ifname := by
  refine ⟨?_, ?_⟩
  · simp only [unconfigure_if, unconfigureSteps, List.map]
    cases env.behavior (Event.ifdownE ifname) <;>
      cases env.behavior (Event.setManualE ifname) <;>
        cases env.behavior (Event.systemE ("ifconfig " ++ ifname ++ " 0.0.0.0")) <;>
          cases env.behavior (Event.ifupE ifname) <;>
            simp [attemptedCount]
  · simp only [unconfigure_if, unconfigureSteps]
    cases env.behavior (Event.ifdownE ifname) <;>
      cases env.behavior (Event.setManualE ifname) <;>
        cases env.behavior (Event.systemE ("ifconfig " ++ ifname ++ " 0.0.0.0")) <;>
          cases env.behavior (Event.ifupE ifname) <;>
            exact ⟨_, rfl⟩

theorem isPrefixOf_self_append (p t : List Char) : p.isPrefixOf (p ++ t) = true := by
  rw [List.isPrefixOf_iff_prefix]
  exact List.prefix_append p t

theorem splitCharOnce_none (sep : Char) (a : List Char) (h : sep ∉ a) :
    splitCharOnce sep a = none := by
  induction a with
  | nil => rfl
  | cons c cs ih =>
    have hc : ¬ c = sep := fun e => h (e ▸ List.mem_cons_self c cs)
    simp only [splitCharOnce, if_neg hc, ih (fun hm => h (List.mem_cons_of_mem _ hm))]

theorem takeWhile_append_stop (m r : List Char)
    (hm : ∀ c ∈ m, c ≠ '\n') (hr : r = [] ∨ r.head? = some '\n') :
    (m ++ r).takeWhile (fun c => c ≠ '\n') = m := by
  induction m with
  | nil =>
    rcases hr with h | h
    · subst h; rfl
    · cases r with
      | nil => rfl
      | cons c rest =>
        simp only [List.head?] at h
        injection h with h
        simp [List.takeWhile_cons, h]
  | cons c cs ih =>
    have hc := hm c (List.mem_cons_self c cs)
    have ih2 := ih (fun x hx => hm x (List.mem_cons_of_mem c hx))
    rw [List.cons_append, List.takeWhile_cons_of_pos (by simp [hc]), ih2]

/-! ## Claim C4 -/

/-- C4 counterexample: on route output whose only line has trailing
interface field `eth01`, querying `eth0` returns the gateway `10.0.0.1`
(the source's regex only requires the queried name to occur after
whitespace somewhere in the line), whereas the claim — destination field
exactly `0.0.0.0` *and* trailing interface field equal to the queried
name, absent otherwise — demands absent here. -/
theorem route_query_counterexample :
    get_gateway (some c4line) "eth0" = some "10.0.0.1" ∧
    get_gateway_spec (some c4line) "eth0" = none := ⟨rfl, rfl⟩

/-- C4 (amended): the gateway query returns group 1 of the Python regex
`^0.0.0.0\s+(.*?)\s+(.*)\s+<ifname>` on the first matching output line —
the destination's dots are wildcards and the queried name need only occur
after whitespace, not be the exact trailing field.  It returns absent when
the route command failed or when no line matches, and on the
specification's example output querying `eth0` yields `192.168.1.1` and
`eth1` absent. -/
theorem route_query_regex_semantics :
    (∀ ifname : String, get_gateway none ifname = none) ∧
    (∀ ifname out : String,
      (∀ l ∈ pySplitlines out, routeLineMatch ifname l = none) →
      get_gateway (some out) ifname = none) ∧
    get_gateway (some c4output) "eth0" = some "192.168.1.1" ∧
    get_gateway (some c4output) "eth1" = none := by
  refine ⟨fun _ => rfl, ?_, rfl, rfl⟩
  intro ifname out hall
  show scanRouteLines ifname (pySplitlines out) = none
  have hgen : ∀ ls : List String, (∀ l ∈ ls, routeLineMatch ifname l = none) →
      scanRouteLines ifname ls = none := by
    intro ls
    induction ls with
    | nil => intro _; rfl
    | cons l rest ih =>
      intro h
      simp only [scanRouteLines, h l (List.mem_cons_self l rest)]
      exact ih (fun x hx => h x (List.mem_cons_of_mem l hx))
  exact hgen _ hall

/-- Witness for C4 (amended): output without any matching line yields
absent. -/
theorem route_query_regex_semantics_witness :
    get_gateway (some "Kernel IP routing table\n10.0.0.0   0.0.0.0   255.0.0.0   U   0 0 0 eth0")
      "eth0" = none :=
  route_query_regex_semantics.2.1 "eth0"
    "Kernel IP routing table\n10.0.0.0   0.0.0.0   255.0.0.0   U   0 0 0 eth0" (by decide)

/-! ## Claim C9 -/

/-- C9 counterexample: a stored config text whose *first* line is
`iface eth0 inet static` makes `get_ifmethod` return absent — the
source's unanchored `.*\n` forces the `iface` line to be the second line —
while the claim (any line matching `iface <name> inet <method>` yields the
method) demands `static`. -/
theorem get_ifmethod_counterexample :
    get_ifmethod (fun i => if i = "eth0" then some "iface eth0 inet static" else none)
      "eth0" = none ∧
    get_ifmethod_spec (fun i => if i = "eth0" then some "iface eth0 inet static" else none)
      "eth0" = some "static" := ⟨rfl, rfl⟩

/-- C9 (amended): `get_ifmethod` returns absent when the config store has
no entry for the interface; when the stored text's *second* line starts
with `iface <name> inet `, it returns the remainder of that line (up to
the next newline); and it returns absent when the stored text has no
newline at all — so a matching first (or later-than-second) line is not
found. -/
theorem get_ifmethod_second_line (conf : String → Option String) (ifname : String) :
    (conf ifname = none → get_ifmethod conf ifname = none) ∧
    (∀ l1 method rest : String,
      conf ifname = some (l1 ++ "\n" ++ ("iface " ++ ifname ++ " inet " ++ method ++ rest)) →
      '\n' ∉ l1.data → '\n' ∉ method.data →
      (rest = "" ∨ rest.data.head? = some '\n') →
      get_ifmethod conf ifname = some method) ∧
    (∀ text : String, conf ifname = some text → '\n' ∉ text.data →
      get_ifmethod conf ifname = none) := by
  refine ⟨?_, ?_, ?_⟩
  · intro hconf
    simp only [get_ifmethod, hconf]
  · intro l1 method rest hconf h1 hm hr
    have hdata : (l1 ++ "\n" ++ ("iface " ++ ifname ++ " inet " ++ method ++ rest)).data
        = l1.data ++ '\n' ::
          (("iface " ++ ifname ++ " inet ").data ++ (method.data ++ rest.data)) := by
      simp [String.data_append, List.append_assoc]
    have hforall : ∀ c ∈ method.data, c ≠ '\n' := fun c hc he => hm (he ▸ hc)
    have hr2 : rest.data = [] ∨ rest.data.head? = some '\n' := by
      rcases hr with h | h
      · exact Or.inl (by rw [h])
      · exact Or.inr h
    simp only [get_ifmethod, hconf, hdata, splitCharOnce_append '\n' _ _ h1,
      isPrefixOf_self_append, if_true, List.drop_left]
    rw [takeWhile_append_stop method.data rest.data hforall hr2, mk_data]
  · intro text hconf hnl
    simp only [get_ifmethod, hconf, splitCharOnce_none '\n' _ hnl]

/-- Witness for C9 (amended): a two-line entry with the `iface` line
second yields the method `dhcp`. -/
theorem get_ifmethod_second_line_witness :
    get_ifmethod (fun i => if i = "eth0"
        then some ("auto eth0" ++ "\n" ++ ("iface " ++ "eth0" ++ " inet " ++ "dhcp" ++ ""))
        else none) "eth0" = some "dhcp" :=
  (get_ifmethod_second_line _ "eth0").2.1 "auto eth0" "dhcp" ""
    rfl (by decide) (by decide) (Or.inl rfl)

/-! ## Claim C10: supporting lemmas -/

theorem char_le_toNat {a b : Char} (h : a ≤ b) : a.toNat ≤ b.toNat := by
  simp [Char.le_def] at h
  exact h

theorem digit_bounds {c : Char} (h : isDigitChar c = true) :
    48 ≤ c.toNat ∧ c.toNat ≤ 57 := by
  unfold isDigitChar at h
  rw [Bool.and_eq_true] at h
  exact ⟨char_le_toNat (of_decide_eq_true h.1), char_le_toNat (of_decide_eq_true h.2)⟩

theorem oct_le_55 {c : Char} (h : isOctDigitChar c = true) : c.toNat ≤ 55 := by
  unfold isOctDigitChar at h
  rw [Bool.and_eq_true] at h
  exact char_le_toNat (of_decide_eq_true h.2)

theorem oct_is_digit {c : Char} (h : isOctDigitChar c = true) : isDigitChar c = true := by
  unfold isOctDigitChar at h
  rw [Bool.and_eq_true] at h
  unfold isDigitChar
  rw [Bool.and_eq_true]
  refine ⟨h.1, decide_eq_true ?_⟩
  exact le_trans (of_decide_eq_true h.2) (by decide)

theorem digit_not_space {c : Char} (h : isDigitChar c = true) :
    isSpaceChar c = false := by
  have h48 := (digit_bounds h).1
  by_contra hs
  rw [Bool.not_eq_false] at hs
  unfold isSpaceChar at hs
  simp only [Bool.or_eq_true, decide_eq_true_eq] at hs
  rcases hs with ((((e | e) | e) | e) | e) | e <;> rw [e] at h48 <;>
    exact absurd h48 (by decide)

theorem digit_ne_dot {c : Char} (h : isDigitChar c = true) : ¬ c = '.' :=
  fun e => absurd (e ▸ h) (by decide)

theorem digit_ne_x {c : Char} (h : isDigitChar c = true) : (c = 'x' || c = 'X') = false := by
  simp only [Bool.or_eq_false_iff, decide_eq_false_iff_not]
  exact ⟨fun e => absurd (e ▸ h) (by decide), fun e => absurd (e ▸ h) (by decide)⟩

theorem decRun_append (as r : List Char) (acc : Nat) (ha : as.all isDigitChar = true)
    (hr : ∀ ch, r.head? = some ch → isDigitChar ch = false) :
    decRun acc (as ++ r) = (as.foldl (fun a c => a * 10 + (c.toNat - 48)) acc, r) := by
  induction as generalizing acc with
  | nil =>
    cases r with
    | nil => rfl
    | cons ch t =>
      have hch := hr ch rfl
      simp [decRun, hch]
  | cons c as' ih =>
    rw [List.all_cons, Bool.and_eq_true] at ha
    simp only [List.cons_append, decRun, ha.1, if_true, List.foldl_cons]
    exact ih _ ha.2

theorem octRun_append (as r : List Char) (acc : Nat) (ha : as.all isOctDigitChar = true)
    (hr : ∀ ch, r.head? = some ch → isOctDigitChar ch = false) :
    octRun acc (as ++ r) = (as.foldl (fun a c => a * 8 + (c.toNat - 48)) acc, r) := by
  induction as generalizing acc with
  | nil =>
    cases r with
    | nil => rfl
    | cons ch t =>
      have hch := hr ch rfl
      simp [octRun, hch]
  | cons c as' ih =>
    rw [List.all_cons, Bool.and_eq_true] at ha
    simp only [List.cons_append, octRun, ha.1, if_true, List.foldl_cons]
    exact ih _ ha.2

theorem dropWhile_head_false {p : Char → Bool} {l : List Char} {c : Char}
    (h : (l.dropWhile p).head? = some c) : p c = false := by
  induction l with
  | nil => simp [List.dropWhile] at h
  | cons x xs ih =>
    by_cases hx : p x
    · rw [List.dropWhile_cons_of_pos hx] at h
      exact ih h
    · rw [List.dropWhile_cons_of_neg hx] at h
      simp only [List.head?_cons, Option.some.injEq] at h
      rw [← h]
      exact Bool.eq_false_iff.mpr hx

theorem all_takeWhile (p : Char → Bool) (l : List Char) :
    (l.takeWhile p).all p = true := by
  induction l with
  | nil => rfl
  | cons x xs ih =>
    by_cases hx : p x
    · rw [List.takeWhile_cons_of_pos hx]
      simp [List.all_cons, hx, ih]
    · rw [List.takeWhile_cons_of_neg hx]
      rfl

theorem octFold_le_255 (l : List Char) (hlen : l.length ≤ 2)
    (ha : l.all isOctDigitChar = true) :
    l.foldl (fun a c => a * 8 + (c.toNat - 48)) 0 ≤ 255 := by
  rcases l with _ | ⟨d1, _ | ⟨d2, _ | ⟨d3, t⟩⟩⟩
  · simp
  · simp only [List.all_cons, List.all_nil, Bool.and_true] at ha
    have h1 := oct_le_55 ha
    simp only [List.foldl]
    omega
  · simp only [List.all_cons, List.all_nil, Bool.and_true, Bool.and_eq_true] at ha
    have h1 := oct_le_55 ha.1
    have h2 := oct_le_55 ha.2
    simp only [List.foldl]
    omega
  · simp at hlen

theorem compOK_split {a : List Char} (h : compOK a = true) :
    a ≠ [] ∧ a.length ≤ 3 ∧ a.all isDigitChar = true ∧ decVal a ≤ 255 := by
  unfold compOK at h
  simp only [Bool.and_eq_true, Bool.not_eq_true', decide_eq_true_eq] at h
  obtain ⟨⟨⟨h1, h2⟩, h3⟩, h4⟩ := h
  refine ⟨?_, h2, h3, h4⟩
  intro e
  rw [e] at h1
  exact absurd h1 (by decide)

theorem octalClean_zero {a' : List Char} :
    octalClean ('0' :: a') = a'.all isOctDigitChar := by
  simp [octalClean]

theorem octalClean_ne_zero {c : Char} {a' : List Char} (hc : ¬ c = '0') :
    octalClean (c :: a') = true := by
  simp [octalClean, hc]

theorem strtoul0_eq_zero (rest : List Char) :
    strtoul0 ('0' :: rest) = strtoul0_zero rest := by
  simp [strtoul0]

theorem strtoul0_eq_dec (c : Char) (rest : List Char) (hc0 : ¬ c = '0') :
    strtoul0 (c :: rest) = decRun 0 (c :: rest) := by
  simp [strtoul0, hc0]

theorem strtoul0_zero_cons (c2 : Char) (rest2 : List Char)
    (hx : (c2 = 'x' || c2 = 'X') = false) :
    strtoul0_zero (c2 :: rest2) = octRun 0 (c2 :: rest2) := by
  simp only [strtoul0_zero, hx, Bool.false_eq_true, if_false]

theorem strtoul0_comp_clean (a r : List Char) (hcomp : compOK a = true)
    (hclean : octalClean a = true)
    (hr : r = [] ∨ ∃ t, r = '.' :: t) :
    ∃ v, v ≤ 255 ∧ strtoul0 (a ++ r) = (v, r) := by
  obtain ⟨hne, hlen, hall, hval⟩ := compOK_split hcomp
  have hrhead : ∀ ch, r.head? = some ch →
      isDigitChar ch = false ∧ isOctDigitChar ch = false := by
    intro ch hch
    rcases hr with hre | ⟨t, hre⟩ <;> subst hre
    · simp at hch
    · simp only [List.head?_cons, Option.some.injEq] at hch
      rw [← hch]
      exact ⟨by decide, by decide⟩
  rcases a with _ | ⟨c, a'⟩
  · exact absurd rfl hne
  rw [List.all_cons, Bool.and_eq_true] at hall
  by_cases hc0 : c = '0'
  · subst hc0
    rw [octalClean_zero] at hclean
    rw [show ('0' :: a') ++ r = '0' :: (a' ++ r) from rfl, strtoul0_eq_zero]
    rcases a' with _ | ⟨d, a''⟩
    · rcases hr with hre | ⟨t, hre⟩ <;> subst hre
      · exact ⟨0, by norm_num, rfl⟩
      · exact ⟨0, by norm_num, rfl⟩
    · rw [List.all_cons, Bool.and_eq_true] at hclean
      have hddig : isDigitChar d = true := oct_is_digit hclean.1
      refine ⟨(d :: a'').foldl (fun x ch => x * 8 + (ch.toNat - 48)) 0, ?_, ?_⟩
      · apply octFold_le_255
        · simp only [List.length_cons] at hlen ⊢
          omega
        · rw [List.all_cons, Bool.and_eq_true]
          exact hclean
      · rw [List.cons_append, strtoul0_zero_cons d (a'' ++ r) (digit_ne_x hddig),
          show d :: (a'' ++ r) = (d :: a'') ++ r from rfl,
          octRun_append (d :: a'') r 0
            (by rw [List.all_cons, Bool.and_eq_true]; exact hclean)
            (fun ch hch => (hrhead ch hch).2)]
  · refine ⟨decVal (c :: a'), hval, ?_⟩
    rw [show (c :: a') ++ r = c :: (a' ++ r) from rfl, strtoul0_eq_dec c _ hc0,
      show c :: (a' ++ r) = (c :: a') ++ r from rfl,
      decRun_append (c :: a') r 0
        (by rw [List.all_cons, Bool.and_eq_true]; exact hall)
        (fun ch hch => (hrhead ch hch).1)]
    rfl

theorem strtoul0_comp_dirty (a r : List Char) (hcomp : compOK a = true)
    (hclean : octalClean a = false) :
    ∃ v d t, v ≤ 255 ∧ isDigitChar d = true ∧ isOctDigitChar d = false ∧
      strtoul0 (a ++ r) = (v, d :: t) := by
  obtain ⟨hne, hlen, hall, hval⟩ := compOK_split hcomp
  rcases a with _ | ⟨c, a'⟩
  · exact absurd rfl hne
  rw [List.all_cons, Bool.and_eq_true] at hall
  by_cases hc0 : c = '0'
  case neg =>
    rw [octalClean_ne_zero hc0] at hclean
    exact absurd hclean (by decide)
  subst hc0
  rw [octalClean_zero] at hclean
  rcases a' with _ | ⟨hd, tl⟩
  · exact absurd hclean (by decide)
  have hsplit := List.takeWhile_append_dropWhile (p := isOctDigitChar) (l := hd :: tl)
  have hdw_ne : (hd :: tl).dropWhile isOctDigitChar ≠ [] := by
    intro e
    have hclean2 : (hd :: tl).all isOctDigitChar = true := by
      conv_lhs => rw [← hsplit]
      rw [e, List.append_nil]
      exact all_takeWhile _ _
    rw [hclean2] at hclean
    exact absurd hclean (by decide)
  rcases hdw : (hd :: tl).dropWhile isOctDigitChar with _ | ⟨d, dt⟩
  · exact absurd hdw hdw_ne
  have hdoct : isOctDigitChar d = false :=
    dropWhile_head_false (l := hd :: tl) (by rw [hdw]; rfl)
  have hddig : isDigitChar d = true := by
    have hmem : d ∈ hd :: tl :=
      (List.dropWhile_sublist isOctDigitChar).subset
        (by rw [hdw]; exact List.mem_cons_self d dt)
    exact List.all_eq_true.mp hall.2 d hmem
  have htw_len : ((hd :: tl).takeWhile isOctDigitChar).length ≤ 2 := by
    have hs := (List.takeWhile_sublist (l := hd :: tl) (p := isOctDigitChar)).length_le
    simp only [List.length_cons] at hlen hs
    omega
  have hhd_dig : isDigitChar hd = true := by
    rw [List.all_cons, Bool.and_eq_true] at hall
    exact hall.2.1
  refine ⟨((hd :: tl).takeWhile isOctDigitChar).foldl (fun x ch => x * 8 + (ch.toNat - 48)) 0,
    d, dt ++ r, ?_, hddig, hdoct, ?_⟩
  · exact octFold_le_255 _ htw_len (all_takeWhile _ _)
  · rw [show ('0' :: hd :: tl) ++ r = '0' :: hd :: (tl ++ r) by simp, strtoul0_eq_zero,
      strtoul0_zero_cons hd (tl ++ r) (digit_ne_x hhd_dig),
      show hd :: (tl ++ r) = (hd :: tl) ++ r from rfl]
    conv_lhs =>
      rw [show (hd :: tl) ++ r
          = (hd :: tl).takeWhile isOctDigitChar ++ ((hd :: tl).dropWhile isOctDigitChar ++ r) by
        rw [← List.append_assoc, List.takeWhile_append_dropWhile]]
    rw [octRun_append _ _ 0 (all_takeWhile _ _)
      (fun ch hch => by
        rw [hdw] at hch
        simp only [List.cons_append, List.head?_cons, Option.some.injEq] at hch
        rw [← hch]
        exact hdoct)]
    rw [hdw, List.cons_append]

theorem inet_core_last (pl v : Nat) (c : Char) (cs : List Char)
    (hcd : isDigitChar c = true) (hs : strtoul0 (c :: cs) = (v, []))
    (hv : v ≤ 255) :
    inet_aton_core pl (c :: cs) = decide (v ≤ atonMax pl) := by
  simp [inet_aton_core, hcd, hs, show ¬ 4294967295 < v by omega]

theorem inet_core_dot (pl' v : Nat) (c : Char) (cs rest2 : List Char)
    (hcd : isDigitChar c = true) (hs : strtoul0 (c :: cs) = (v, '.' :: rest2))
    (hv : v ≤ 255) :
    inet_aton_core (pl' + 1) (c :: cs) = inet_aton_core pl' rest2 := by
  simp [inet_aton_core, hcd, hs, show ¬ 4294967295 < v by omega,
    show ¬ 255 < v by omega]

theorem inet_core_bad (pl v : Nat) (c : Char) (cs : List Char) (d : Char) (t : List Char)
    (hcd : isDigitChar c = true) (hs : strtoul0 (c :: cs) = (v, d :: t))
    (hv : v ≤ 255) (hdd : isDigitChar d = true) :
    inet_aton_core pl (c :: cs) = false := by
  simp [inet_aton_core, hcd, hs, show ¬ 4294967295 < v by omega,
    digit_ne_dot hdd, digit_not_space hdd]

/-- The key bridge: on text that is `joinSep '.'` of `pl + 1` regex
components, glibc `inet_aton` succeeds exactly when every component is
octal-clean. -/
theorem aton_comps (gs : List (List Char)) (pl : Nat) (hlen : gs.length = pl + 1)
    (hcomp : ∀ g ∈ gs, compOK g = true) :
    inet_aton_core pl (joinSep '.' gs) = gs.all octalClean := by
  induction gs generalizing pl with
  | nil => simp at hlen
  | cons g gs' ih =>
    have hg := hcomp g (List.mem_cons_self g gs')
    obtain ⟨hne, hlen3, hall, hval⟩ := compOK_split hg
    rcases g with _ | ⟨c, a'⟩
    · exact absurd rfl hne
    have hcd : isDigitChar c = true := by
      rw [List.all_cons, Bool.and_eq_true] at hall
      exact hall.1
    cases gs' with
    | nil =>
      have hpl : pl = 0 := by
        simp only [List.length_cons, List.length_nil] at hlen
        omega
      subst hpl
      show inet_aton_core 0 (c :: a') = [c :: a'].all octalClean
      by_cases hcl : octalClean (c :: a') = true
      · obtain ⟨v, hv, hs⟩ := strtoul0_comp_clean (c :: a') [] hg hcl (Or.inl rfl)
        rw [List.append_nil] at hs
        rw [inet_core_last 0 v c a' hcd hs hv]
        simp [List.all_cons, hcl, atonMax, decide_eq_true hv]
      · have hcl' : octalClean (c :: a') = false := Bool.eq_false_iff.mpr hcl
        obtain ⟨v, d, t, hv, hdd, hdo, hs⟩ := strtoul0_comp_dirty (c :: a') [] hg hcl'
        rw [List.append_nil] at hs
        rw [inet_core_bad 0 v c a' d t hcd hs hv hdd]
        simp [List.all_cons, hcl']
    | cons g2 gs'' =>
      have hpl : pl = gs''.length + 1 := by
        simp only [List.length_cons] at hlen
        omega
      subst hpl
      show inet_aton_core (gs''.length + 1)
          ((c :: a') ++ '.' :: joinSep '.' (g2 :: gs'')) = _
      by_cases hcl : octalClean (c :: a') = true
      · obtain ⟨v, hv, hs⟩ :=
          strtoul0_comp_clean (c :: a') ('.' :: joinSep '.' (g2 :: gs'')) hg hcl
            (Or.inr ⟨_, rfl⟩)
        rw [List.cons_append] at hs ⊢
        rw [inet_core_dot gs''.length v c _ _ hcd hs hv]
        rw [ih gs''.length (by simp)
          (fun g hgm => hcomp g (List.mem_cons_of_mem _ hgm))]
        simp [List.all_cons, hcl]
      · have hcl' : octalClean (c :: a') = false := Bool.eq_false_iff.mpr hcl
        obtain ⟨v, d, t, hv, hdd, hdo, hs⟩ :=
          strtoul0_comp_dirty (c :: a') ('.' :: joinSep '.' (g2 :: gs'')) hg hcl'
        rw [List.cons_append] at hs ⊢
        rw [inet_core_bad _ v c _ d t hcd hs hv hdd]
        simp [List.all_cons, hcl']

theorem quadOK_decomp {cs : List Char} (h : quadOK cs = true) :
    ∃ a b c d, splitCharAll '.' cs = [a, b, c, d] ∧
      compOK a = true ∧ compOK b = true ∧ compOK c = true ∧ compOK d = true := by
  unfold quadOK at h
  rcases hgs : splitCharAll '.' cs with _ | ⟨a, _ | ⟨b, _ | ⟨c2, _ | ⟨d, _ | ⟨x, rest⟩⟩⟩⟩⟩ <;>
      rw [hgs] at h
  · exact absurd h Bool.false_ne_true
  · exact absurd h Bool.false_ne_true
  · exact absurd h Bool.false_ne_true
  · exact absurd h Bool.false_ne_true
  · have h' : (((compOK a && compOK b) && compOK c2) && compOK d) = true := h
    rw [Bool.and_eq_true, Bool.and_eq_true, Bool.and_eq_true] at h'
    exact ⟨a, b, c2, d, rfl, h'.1.1.1, h'.1.1.2, h'.1.2, h'.2⟩
  · exact absurd h Bool.false_ne_true

/-! ## Claim C10 -/

/-- C10 counterexample: `is_ipaddr "099.0.0.1"` returns `False` — the
regex passes, but `inet_aton` parses `099` with a leading-zero octal base
and stops at the non-octal digit `9`, so the validation fails — while the
claim (four dot-separated 1–3-digit decimal components each ≤ 255, with
`099` explicitly accepted) demands `True`. -/
theorem is_ipaddr_counterexample :
    is_ipaddr "099.0.0.1" = false ∧ is_ipaddr_claim "099.0.0.1" = true := ⟨rfl, rfl⟩

/-- C10 (amended): for strings of exactly four dot-separated decimal
components of one to three digits each with value at most 255,
`is_ipaddr` returns `True` exactly when every component is octal-clean
for `inet_aton`'s leading-zero base detection (no digit outside `0`–`7`
after a leading `0`: `01` is accepted, `099` is rejected); and every
string without that four-component shape and without a trailing newline
(Python's `$` tolerates one trailing newline, making such strings
platform-dependent) yields `False`.  The validator never raises. -/
theorem is_ipaddr_characterization :
    (∀ s : String, quadOK s.data = true →
      is_ipaddr s = (splitCharAll '.' s.data).all octalClean) ∧
    (∀ s : String, quadOK s.data = false → s.data.getLast? ≠ some '\n' →
      is_ipaddr s = false) := by
  constructor
  · intro s hq
    obtain ⟨a, b, c, d, hgs, ha, hb, hc, hd⟩ := quadOK_decomp hq
    have hjoin : joinSep '.' (splitCharAll '.' s.data) = s.data :=
      (splitCharAll_inv '.' s.data).1
    rw [hgs] at hjoin
    have hcompAll : ∀ g ∈ [a, b, c, d], compOK g = true := by
      intro g hgm
      simp only [List.mem_cons, List.not_mem_nil, or_false] at hgm
      rcases hgm with rfl | rfl | rfl | rfl
      exacts [ha, hb, hc, hd]
    have hip : ipv4match s = true := by
      unfold ipv4match
      rw [hq]
      exact Bool.true_or _
    show (ipv4match s && inet_aton_ok s) = (splitCharAll '.' s.data).all octalClean
    rw [hip, Bool.true_and, hgs]
    show inet_aton_core 3 s.data = [a, b, c, d].all octalClean
    rw [← hjoin]
    exact aton_comps [a, b, c, d] 3 rfl hcompAll
  · intro s hq hl
    show (ipv4match s && inet_aton_ok s) = false
    unfold ipv4match
    rw [hq]
    cases hgl : s.data.getLast? with
    | none => simp
    | some ch =>
      have hch : ¬ ch = '\n' := fun e => hl (by rw [hgl, e])
      simp [hch]

/-- Witness for C10 (amended): the leading-zero octal-clean component
`01` is accepted. -/
theorem is_ipaddr_characterization_witness : is_ipaddr "01.2.3.4" = true :=
  Eq.trans (is_ipaddr_characterization.1 "01.2.3.4" (by decide)) (by decide)

end Ifutil
